import Mathlib

/-!
Shallow embedding of the dot-phrase clinical note editor core:
the trigger matcher (`handleChange`), suggestion selector navigation
(`handleKeyDown`), expansion applier (`insertPhrase`) and placeholder
navigation (`handleF2Navigation`) from the Editor component, and the
phrase store operations (`handleAddPhrase`, `handleDeletePhrase`) from
App.tsx.  Strings are modelled as `List Char`; JavaScript numbers that
can become NaN are modelled as `Option Int`.
-/

/-- Phrase record, from the DotPhrase interface in types.ts. -/
structure DotPhrase where
  id : List Char
  trigger : List Char
  expansion : List Char
  category : List Char
deriving DecidableEq

/-- Membership of the character class [a-zA-Z0-9] used by the
trigger-detection regex in handleChange. -/
def isAlnum (c : Char) : Bool :=
  ('a' ≤ c && c ≤ 'z') || ('A' ≤ c && c ≤ 'Z') || ('0' ≤ c && c ≤ '9')

/-- Leftmost-match semantics of the regex \.([a-zA-Z0-9]*)$ used in
handleChange: scanning left to right, a match starts at the first '.'
whose whole remainder up to the end of the string lies in [a-zA-Z0-9];
the captured group is that remainder. -/
def dotMatch : List Char → Option (List Char)
  | [] => none
  | c :: rest =>
    if c = '.' ∧ rest.all isAlnum then some rest else dotMatch rest

/-- Trigger matcher of handleChange: the regex is applied to
newVal.slice(0, newPos), the text strictly before the cursor. -/
def triggerMatch (text : List Char) (pos : Nat) : Option (List Char) :=
  dotMatch (text.take pos)

/-- Membership of the character class [a-zA-Z0-9_-] named by the claimed
pattern (the permissive variant that also appears in the generated
plugin template). -/
def isAlnumExt (c : Char) : Bool :=
  isAlnum c || c = '_' || c = '-'

/-- Matcher behaviour stated by the claim, with the permissive class:
leftmost match of \.([a-zA-Z0-9_-]*)$. -/
def dotMatchClaimed : List Char → Option (List Char)
  | [] => none
  | c :: rest =>
    if c = '.' ∧ rest.all isAlnumExt then some rest
    else dotMatchClaimed rest

/-- Trigger matcher as the claim states it (permissive class). -/
def triggerMatchClaimed (text : List Char) (pos : Nat) : Option (List Char) :=
  dotMatchClaimed (text.take pos)

/-- A JavaScript number as it flows through suggestionIndex: an integer
value, or NaN (modelled as none). -/
abbrev JSNum := Option Int

/-- Addition with NaN propagation. -/
def jsAdd : JSNum → Int → JSNum
  | none, _ => none
  | some x, y => some (x + y)

/-- JavaScript remainder a % n: truncated remainder; NaN when the
dividend is NaN or the divisor is 0. -/
def jsRem : JSNum → Int → JSNum
  | none, _ => none
  | some x, n => if n = 0 then none else some (Int.tmod x n)

/-- ArrowDown branch of handleKeyDown:
setSuggestionIndex(prev => (prev + 1) % filteredPhrases.length). -/
def navDown (prev : JSNum) (len : Nat) : JSNum :=
  jsRem (jsAdd prev 1) (len : Int)

/-- ArrowUp branch of handleKeyDown:
setSuggestionIndex(prev => (prev - 1 + filteredPhrases.length) % filteredPhrases.length). -/
def navUp (prev : JSNum) (len : Nat) : JSNum :=
  jsRem (jsAdd (jsAdd prev (-1)) (len : Int)) (len : Int)

/-- Lowercasing as String.prototype.toLowerCase acts on the ASCII range
(Char.toLower lowers exactly the letters A-Z). -/
def lowerStr (s : List Char) : List Char := s.map Char.toLower

/-- Candidate filter of the Editor:
phrases.filter(p => p.trigger.toLowerCase().startsWith(suggestionQuery.toLowerCase())). -/
def filteredPhrases (phrases : List DotPhrase) (query : List Char) : List DotPhrase :=
  phrases.filter (fun p => (lowerStr query).isPrefixOf (lowerStr p.trigger))

/-- Index resolution of String.prototype.slice: a negative index counts
from the end of the string, and the result is clamped to [0, len]. -/
def jsSliceIdx (len : Nat) (i : Int) : Nat :=
  if i < 0 then ((len : Int) + i).toNat else min i.toNat len

/-- text.slice(a, b): the characters from the resolved start index up to
(excluding) the resolved end index; empty when start ≥ end. -/
def jsSlice (s : List Char) (a b : Int) : List Char :=
  (s.take (jsSliceIdx s.length b)).drop (jsSliceIdx s.length a)

/-- Clamping performed by setSelectionRange: a position is forced into
[0, len]. -/
def clampPos (len : Nat) (i : Int) : Nat := min i.toNat len

/-- Expansion applier insertPhrase: from the textarea value, its
selectionEnd, the active suggestionQuery and the chosen phrase
expansion, build
text.slice(0, currentPos - (query.length + 1)) + expansion + text.slice(currentPos)
and place the cursor at startIdx + expansion.length. -/
def insertPhrase (text : List Char) (currentPos : Nat) (query : List Char)
    (expansion : List Char) : List Char × Nat :=
  let startIdx : Int := (currentPos : Int) - ((query.length : Int) + 1)
  let newText := jsSlice text 0 startIdx ++ expansion ++ text.drop currentPos
  (newText, clampPos newText.length (startIdx + (expansion.length : Int)))

/-- First index at which needle occurs in hay, scanning from the left;
none when absent.  (For the empty needle this is used nowhere: the only
needle in the program is the three-character marker.) -/
def findOccurrence (needle : List Char) : List Char → Option Nat
  | [] => none
  | c :: rest =>
    if needle.isPrefixOf (c :: rest) then some 0
    else (findOccurrence needle rest).map (fun i => i + 1)

/-- text.indexOf(needle, start): first occurrence at or after start,
with start clamped to the text length. -/
def jsIndexOf (text needle : List Char) (start : Nat) : Option Nat :=
  (findOccurrence needle (text.drop (min start text.length))).map
    (fun i => i + min start text.length)

/-- The placeholder marker literal. -/
def marker : List Char := ['*', '*', '*']

/-- Placeholder navigation handleF2Navigation: look for the marker at or
after selectionEnd, wrap to a search from the start when absent, and
when found return the new selection range (index, index + 3); none means
the buffer has no marker and the handler leaves selection and focus
untouched. -/
def handleF2Nav (text : List Char) (selEnd : Nat) : Option (Nat × Nat) :=
  (match jsIndexOf text marker selEnd with
   | some i => some i
   | none => jsIndexOf text marker 0).map (fun i => (i, i + 3))

/-- The marker occurs in text at offset i. -/
def hasMarkerAt (text : List Char) (i : Nat) : Prop :=
  marker <+: text.drop i

instance (text : List Char) (i : Nat) : Decidable (hasMarkerAt text i) := by
  unfold hasMarkerAt; infer_instance

/-- Phrase store add, handleAddPhrase: setPhrases(prev => [...prev, newPhrase]). -/
def handleAddPhrase (prev : List DotPhrase) (newPhrase : DotPhrase) : List DotPhrase :=
  prev ++ [newPhrase]

/-- Phrase store delete, handleDeletePhrase:
setPhrases(prev => prev.filter(p => p.id !== id)). -/
def handleDeletePhrase (prev : List DotPhrase) (i : List Char) : List DotPhrase :=
  prev.filter (fun p => p.id != i)

/-- Modelled from the claim's wording for delete(id): remove only the
first record whose id matches, keep everything else. -/
def removeFirstById : List DotPhrase → List Char → List DotPhrase
  | [], _ => []
  | p :: rest, i => if p.id = i then rest else p :: removeFirstById rest i

/-- Sample phrase with an uppercase trigger, for the filtering claim. -/
def soapPhrase : DotPhrase :=
  ⟨String.toList "1", String.toList "SOAP", [], []⟩

/-- Sample phrase whose trigger contains the query only as an infix. -/
def xsoapPhrase : DotPhrase :=
  ⟨String.toList "2", String.toList "xsoap", [], []⟩

/-- Two distinct phrase records sharing one id, for the delete claim. -/
def dupPhraseA : DotPhrase :=
  ⟨String.toList "1", String.toList "a", [], []⟩

/-- Second record with the same id as dupPhraseA. -/
def dupPhraseB : DotPhrase :=
  ⟨String.toList "1", String.toList "b", [], []⟩

/-- C9: handleAddPhrase appends at the end with no uniqueness check: the
result is exactly the old list with the new record at the end, its
length grows by one, and the existing records and their order are
untouched. -/
theorem handleAddPhrase_appends (prev : List DotPhrase) (newPhrase : DotPhrase) :
    handleAddPhrase prev newPhrase = prev ++ [newPhrase] ∧
    (handleAddPhrase prev newPhrase).length = prev.length + 1 ∧
    (handleAddPhrase prev newPhrase).take prev.length = prev := by
  refine ⟨rfl, by simp [handleAddPhrase], ?_⟩
  simp [handleAddPhrase, List.take_left]

/-- C3: with the suggestion box open and zero candidates, ArrowDown
stores (0 + 1) % 0 = NaN and ArrowUp stores (0 - 1 + 0) % 0 = NaN into
suggestionIndex, so the state changes and the index is no longer a
valid index — the navigation is not the no-op the specification
requires. -/
theorem nav_zero_candidates_not_noop :
    navDown (some 0) 0 = none ∧ navUp (some 0) 0 = none ∧
    (none : JSNum) ≠ some 0 := by decide

/-- C4: invoked with a negative trigger span (buffer "ab", cursor 1,
query "xxx"), insertPhrase is not a no-op: JavaScript slice semantics on
the negative index rewrite the buffer to "Eb" and move the cursor,
instead of leaving "ab" untouched as the specification requires. -/
theorem insertPhrase_negative_span_corrupts :
    insertPhrase (String.toList "ab") 1 (String.toList "xxx") (String.toList "E") =
      (String.toList "Eb", 0) ∧
    String.toList "Eb" ≠ String.toList "ab" := by decide

/-- Characterization of the leftmost regex match: dotMatch returns q
exactly when the scanned string ends with '.' followed by q, with q
drawn entirely from [a-zA-Z0-9].  (Such a q is unique: a longer dotted
suffix would put a '.' inside the shorter one's class characters.) -/
theorem dotMatch_iff (t q : List Char) :
    dotMatch t = some q ↔ (q.all isAlnum = true ∧ ('.' :: q) <:+ t) := by
  induction t with
  | nil => simp [dotMatch]
  | cons c rest ih =>
    by_cases h : c = '.' ∧ rest.all isAlnum = true
    · rw [dotMatch, if_pos h]
      obtain ⟨hc, ha⟩ := h
      subst hc
      constructor
      · rintro ⟨rfl⟩
        exact ⟨ha, List.suffix_refl _⟩
      · rintro ⟨hq, hsuf⟩
        rcases List.suffix_cons_iff.mp hsuf with heq | hsuf'
        · cases heq; rfl
        · exfalso
          have hdot : '.' ∈ rest :=
            hsuf'.sublist.mem (List.mem_cons_self _ _)
          have := (List.all_eq_true.mp ha) '.' hdot
          simp [isAlnum] at this
    · rw [dotMatch, if_neg h, ih]
      constructor
      · rintro ⟨hq, hsuf⟩
        exact ⟨hq, List.suffix_cons_iff.mpr (Or.inr hsuf)⟩
      · rintro ⟨hq, hsuf⟩
        refine ⟨hq, ?_⟩
        rcases List.suffix_cons_iff.mp hsuf with heq | hsuf'
        · exfalso
          obtain ⟨hc, hrest⟩ := List.cons.injEq .. ▸ heq
          exact h ⟨hc.symm ▸ rfl, hrest ▸ hq⟩
        · exact hsuf'

/-- C1 (amended): the trigger matcher reports query q exactly when the
text strictly before the cursor ends with a '.' followed by q reaching
the cursor, with q drawn from the class [a-zA-Z0-9] (underscore and
hyphen are not in the class and break the match). -/
theorem trigger_match_characterization (text : List Char) (pos : Nat) (q : List Char) :
    triggerMatch text pos = some q ↔
      (q.all isAlnum = true ∧ ('.' :: q) <:+ text.take pos) :=
  dotMatch_iff (text.take pos) q

/-- C1 counterexample: on the buffer "._" with the cursor at offset 2,
the pattern of the claim (class [a-zA-Z0-9_-]) matches with query "_",
but the code's matcher (class [a-zA-Z0-9]) reports no match. -/
theorem trigger_match_pattern_counterexample :
    triggerMatchClaimed (String.toList "._") 2 = some (String.toList "_") ∧
    triggerMatch (String.toList "._") 2 = none ∧
    triggerMatch (String.toList "._") 2 ≠ triggerMatchClaimed (String.toList "._") 2 := by
  decide

/-- C5: with a positive candidate count and an in-range index, ArrowDown
moves the selection to (selectedIndex + 1) mod candidateCount and ArrowUp
moves it to (selectedIndex - 1 + candidateCount) mod candidateCount. -/
theorem nav_wraparound (i n : Nat) (h : i < n) :
    navDown (some (i : Int)) n = some (((i : Int) + 1) % (n : Int)) ∧
    navUp (some (i : Int)) n = some (((i : Int) - 1 + (n : Int)) % (n : Int)) := by
  have hn : ¬ ((n : Int) = 0) := by omega
  refine ⟨?_, ?_⟩
  · simp only [navDown, jsAdd, jsRem, if_neg hn]
    exact congrArg some (Int.tmod_eq_emod (by omega) (by omega))
  · simp only [navUp, jsAdd, jsRem, if_neg hn]
    exact congrArg some (Int.tmod_eq_emod (by omega) (by omega))

/-- Witness for C5: with 3 candidates, ArrowDown from index 2 wraps to 0
and ArrowUp from index 0 wraps to 2. -/
theorem nav_wraparound_witness :
    navDown (some 2) 3 = some 0 ∧ navUp (some 0) 3 = some 2 :=
  ⟨((nav_wraparound 2 3 (by decide)).1).trans (by decide),
   ((nav_wraparound 0 3 (by decide)).2).trans (by decide)⟩

/-- Slice from 0 to a natural index equals take. -/
theorem jsSlice_take (s : List Char) (k : Nat) :
    jsSlice s 0 ((k : Nat) : Int) = s.take k := by
  have h0 : jsSliceIdx s.length 0 = 0 := by
    unfold jsSliceIdx
    norm_num
  have h1 : jsSliceIdx s.length ((k : Nat) : Int) = min k s.length := by
    unfold jsSliceIdx
    rw [if_neg (by omega), Int.toNat_natCast]
  rw [jsSlice, h0, h1, List.drop_zero]
  rcases Nat.le_total k s.length with h | h
  · rw [Nat.min_eq_left h]
  · rw [Nat.min_eq_right h, List.take_length, List.take_of_length_le h]

/-- C2: when the active query of length L fits before the cursor,
confirming an expansion replaces exactly the buffer span
[cursorOffset - (L + 1), cursorOffset) with the expansion text — the
text before that span and the text from the cursor on are unchanged —
and puts the cursor right after the inserted text, at
(cursorOffset - (L + 1)) + expansion.length. -/
theorem insertPhrase_replaces_trigger_span (text query expansion : List Char)
    (pos : Nat) (hq : query.length + 1 ≤ pos) (hp : pos ≤ text.length) :
    insertPhrase text pos query expansion =
      (text.take (pos - (query.length + 1)) ++ expansion ++ text.drop pos,
       pos - (query.length + 1) + expansion.length) := by
  have hstart : (pos : Int) - ((query.length : Int) + 1)
      = (((pos - (query.length + 1) : Nat) : Nat) : Int) := by omega
  have hcast : (((pos - (query.length + 1) : Nat) : Nat) : Int)
      + (expansion.length : Int)
      = (((pos - (query.length + 1) + expansion.length : Nat) : Nat) : Int) := by
    push_cast
    ring
  simp only [insertPhrase, hstart, hcast, jsSlice_take]
  refine congrArg _ ?_
  unfold clampPos
  rw [Int.toNat_natCast]
  simp only [List.length_append, List.length_take, List.length_drop]
  omega

/-- Witness for C2: buffer "Patient is .so", cursor 14, query "so",
expansion "S: ***" gives buffer "Patient is S: ***" with cursor 17. -/
theorem insertPhrase_replaces_trigger_span_witness :
    insertPhrase (String.toList "Patient is .so") 14 (String.toList "so")
        (String.toList "S: ***") =
      (String.toList "Patient is S: ***", 17) :=
  (insertPhrase_replaces_trigger_span (String.toList "Patient is .so")
    (String.toList "so") (String.toList "S: ***") 14 (by decide) (by decide)).trans
    (by decide)

/-- C6: the candidate list is exactly the phrases whose lowercased
trigger starts with the lowercased query, kept in store order (the
filter result is a sublist of the store); the empty query keeps every
phrase; for query "so" a trigger "SOAP" is kept and a trigger "xsoap"
is not. -/
theorem filteredPhrases_characterization :
    (∀ phrases query p, p ∈ filteredPhrases phrases query ↔
        (p ∈ phrases ∧ (lowerStr query) <+: (lowerStr p.trigger))) ∧
    (∀ phrases query, (filteredPhrases phrases query).Sublist phrases) ∧
    (∀ phrases, filteredPhrases phrases [] = phrases) ∧
    filteredPhrases [soapPhrase] (String.toList "so") = [soapPhrase] ∧
    filteredPhrases [xsoapPhrase] (String.toList "so") = [] := by
  refine ⟨?_, ?_, ?_, by decide, by decide⟩
  · intro phrases query p
    simp only [filteredPhrases, List.mem_filter]
    exact and_congr_right (fun _ => List.isPrefixOf_iff_prefix)
  · intro phrases query
    exact List.filter_sublist _
  · intro phrases
    apply List.filter_eq_self.mpr
    intro p _
    simp [lowerStr, List.isPrefixOf]

/-- C8 counterexample: with two records sharing id "1", delete("1")
removes both of them, while the claim predicts only the first record is
removed and the second survives. -/
theorem delete_removes_all_counterexample :
    handleDeletePhrase [dupPhraseA, dupPhraseB] (String.toList "1") = [] ∧
    removeFirstById [dupPhraseA, dupPhraseB] (String.toList "1") = [dupPhraseB] ∧
    ([] : List DotPhrase) ≠ [dupPhraseB] := by decide

/-- C8 (amended): delete(id) removes every record whose id equals the
given id, keeps all the other records in their relative order, and is a
no-op when no record carries that id. -/
theorem handleDeletePhrase_characterization (prev : List DotPhrase) (i : List Char) :
    (handleDeletePhrase prev i).Sublist prev ∧
    (∀ p, p ∈ handleDeletePhrase prev i ↔ (p ∈ prev ∧ p.id ≠ i)) ∧
    ((∀ p, p ∈ prev → p.id ≠ i) → handleDeletePhrase prev i = prev) := by
  refine ⟨List.filter_sublist _, ?_, ?_⟩
  · intro p
    simp [handleDeletePhrase, List.mem_filter, bne_iff_ne]
  · intro hall
    apply List.filter_eq_self.mpr
    intro p hp
    exact bne_iff_ne.mpr (hall p hp)

/-- Witness for C8 (amended): deleting an absent id leaves the store
unchanged. -/
theorem handleDeletePhrase_characterization_witness :
    handleDeletePhrase [soapPhrase] (String.toList "z") = [soapPhrase] :=
  (handleDeletePhrase_characterization [soapPhrase] (String.toList "z")).2.2
    (by decide)

/-- C10: whenever the matcher reports query q at cursor offset pos (for
a cursor inside the buffer), q contains no dot, the query plus its dot
fits before the cursor, the buffer character at pos - (q.length + 1) is
the dot, and the trigger span start computed by insertPhrase is
non-negative. -/
theorem trigger_match_safety (text q : List Char) (pos : Nat)
    (hp : pos ≤ text.length) (h : triggerMatch text pos = some q) :
    (∀ c ∈ q, c ≠ '.') ∧ q.length + 1 ≤ pos ∧
    text[pos - (q.length + 1)]? = some '.' ∧
    0 ≤ (pos : Int) - ((q.length : Int) + 1) := by
  obtain ⟨hall, hsuf⟩ := (dotMatch_iff (text.take pos) q).mp h
  obtain ⟨pre, hpre⟩ := hsuf
  have hlen : pre.length + (q.length + 1) = pos := by
    have hl := congrArg List.length hpre
    simp only [List.length_append, List.length_cons, List.length_take] at hl
    omega
  have hdot : ∀ c ∈ q, c ≠ '.' := by
    intro c hc heq
    have := List.all_eq_true.mp hall c hc
    rw [heq] at this
    simp [isAlnum] at this
  refine ⟨hdot, by omega, ?_, by omega⟩
  have hidx : pos - (q.length + 1) = pre.length := by omega
  have h1 : (text.take pos)[pre.length]? = some '.' := by
    rw [← hpre, List.getElem?_append_right (le_refl _)]
    simp
  rw [hidx, ← List.getElem?_take_of_lt (show pre.length < pos by omega)]
  exact h1

/-- Witness for C10: buffer ".a", cursor 2, where the matcher reports
query "a". -/
theorem trigger_match_safety_witness :
    (∀ c ∈ String.toList "a", c ≠ '.') ∧
    (String.toList "a").length + 1 ≤ 2 ∧
    (String.toList ".a")[2 - ((String.toList "a").length + 1)]? = some '.' ∧
    0 ≤ (2 : Int) - (((String.toList "a").length : Int) + 1) :=
  trigger_match_safety (String.toList ".a") (String.toList "a") 2
    (by decide) (by decide)

/-- A successful findOccurrence returns the first occurrence: the needle
occurs there and nowhere earlier. -/
theorem findOccurrence_eq_some {needle hay : List Char} {i : Nat}
    (h : findOccurrence needle hay = some i) :
    needle <+: hay.drop i ∧ ∀ j, j < i → ¬ (needle <+: hay.drop j) := by
  induction hay generalizing i with
  | nil => simp [findOccurrence] at h
  | cons c rest ih =>
    rw [findOccurrence] at h
    by_cases hpre : needle.isPrefixOf (c :: rest) = true
    · rw [if_pos hpre] at h
      cases h
      exact ⟨List.isPrefixOf_iff_prefix.mp hpre,
        fun j hj => absurd hj (Nat.not_lt_zero j)⟩
    · rw [if_neg hpre] at h
      cases hfind : findOccurrence needle rest with
      | none => rw [hfind] at h; simp at h
      | some i' =>
        rw [hfind] at h
        simp only [Option.map_some', Option.some.injEq] at h
        subst h
        obtain ⟨h1, h2⟩ := ih hfind
        refine ⟨by simpa using h1, ?_⟩
        intro j hj
        cases j with
        | zero =>
          simp only [List.drop_zero]
          intro hc
          exact hpre (List.isPrefixOf_iff_prefix.mpr hc)
        | succ j' =>
          simp only [List.drop_succ_cons]
          exact h2 j' (by omega)

/-- A failing findOccurrence means a non-empty needle occurs nowhere. -/
theorem findOccurrence_eq_none {needle : List Char} (hn : needle ≠ []) :
    ∀ {hay : List Char}, findOccurrence needle hay = none →
      ∀ j, ¬ (needle <+: hay.drop j) := by
  intro hay
  induction hay with
  | nil =>
    intro _ j hc
    rw [List.drop_nil] at hc
    exact hn (List.prefix_nil.mp hc)
  | cons c rest ih =>
    intro h j hc
    rw [findOccurrence] at h
    by_cases hpre : needle.isPrefixOf (c :: rest) = true
    · rw [if_pos hpre] at h
      exact Option.some_ne_none _ h
    · rw [if_neg hpre] at h
      cases hfind : findOccurrence needle rest with
      | some i' => rw [hfind] at h; simp at h
      | none =>
        cases j with
        | zero =>
          rw [List.drop_zero] at hc
          exact hpre (List.isPrefixOf_iff_prefix.mpr hc)
        | succ j' =>
          rw [List.drop_succ_cons] at hc
          exact ih hfind j' hc

/-- A successful jsIndexOf returns the first occurrence at or after the
clamped start position. -/
theorem jsIndexOf_eq_some {text needle : List Char} {s i : Nat}
    (h : jsIndexOf text needle s = some i) :
    min s text.length ≤ i ∧ needle <+: text.drop i ∧
      ∀ j, min s text.length ≤ j → j < i → ¬ (needle <+: text.drop j) := by
  unfold jsIndexOf at h
  generalize hgen : min s text.length = s' at h ⊢
  cases hfind : findOccurrence needle (text.drop s') with
  | none => rw [hfind] at h; simp at h
  | some i' =>
    rw [hfind] at h
    simp only [Option.map_some', Option.some.injEq] at h
    subst h
    obtain ⟨h1, h2⟩ := findOccurrence_eq_some hfind
    rw [List.drop_drop] at h1
    refine ⟨by omega, ?_, ?_⟩
    · rwa [Nat.add_comm s' i'] at h1
    · intro j hj1 hj2
      have h3 := h2 (j - s') (by omega)
      rw [List.drop_drop] at h3
      have heq : s' + (j - s') = j := by omega
      rwa [heq] at h3

/-- A failing jsIndexOf means the non-empty needle occurs nowhere at or
after the clamped start position. -/
theorem jsIndexOf_eq_none {text needle : List Char} {s : Nat} (hn : needle ≠ [])
    (h : jsIndexOf text needle s = none) :
    ∀ j, min s text.length ≤ j → ¬ (needle <+: text.drop j) := by
  unfold jsIndexOf at h
  generalize hgen : min s text.length = s' at h ⊢
  cases hfind : findOccurrence needle (text.drop s') with
  | some i' => rw [hfind] at h; simp at h
  | none =>
    intro j hj hc
    have h3 := findOccurrence_eq_none hn hfind (j - s')
    rw [List.drop_drop] at h3
    have heq : s' + (j - s') = j := by omega
    rw [heq] at h3
    exact h3 hc

/-- C7: for a cursor inside the buffer, F2 is a no-op exactly when the
buffer holds no marker; when it returns a selection (a, b), then
b = a + 3, the marker occurs at a, and a is either the first occurrence
at or after the cursor, or — when no occurrence is at or after the
cursor — the first occurrence in the whole buffer (wraparound); on the
buffer "A *** B *** C" successive invocations from cursor 0 select
[2, 5), then from 5 select [8, 11), then from 11 wrap back to [2, 5). -/
theorem handleF2Nav_spec (text : List Char) (pos : Nat) (hp : pos ≤ text.length) :
    (handleF2Nav text pos = none ↔ ∀ j, ¬ hasMarkerAt text j) ∧
    (∀ a b, handleF2Nav text pos = some (a, b) →
        b = a + 3 ∧ hasMarkerAt text a ∧
        ((pos ≤ a ∧ ∀ j, pos ≤ j → j < a → ¬ hasMarkerAt text j) ∨
         ((∀ j, pos ≤ j → ¬ hasMarkerAt text j) ∧
          ∀ j, j < a → ¬ hasMarkerAt text j))) ∧
    (handleF2Nav (String.toList "A *** B *** C") 0 = some (2, 5) ∧
     handleF2Nav (String.toList "A *** B *** C") 5 = some (8, 11) ∧
     handleF2Nav (String.toList "A *** B *** C") 11 = some (2, 5)) := by
  have hmin : min pos text.length = pos := Nat.min_eq_left hp
  have hm : marker ≠ [] := by decide
  refine ⟨⟨?_, ?_⟩, ?_, by decide, by decide, by decide⟩
  · intro hnone j hj
    unfold handleF2Nav at hnone
    cases h1 : jsIndexOf text marker pos with
    | some i => rw [h1] at hnone; simp at hnone
    | none =>
      rw [h1] at hnone
      cases h2 : jsIndexOf text marker 0 with
      | some i => rw [h2] at hnone; simp at hnone
      | none => exact jsIndexOf_eq_none hm h2 j (by omega) hj
  · intro hall
    unfold handleF2Nav
    cases h1 : jsIndexOf text marker pos with
    | some i =>
      exfalso
      obtain ⟨-, hmk, -⟩ := jsIndexOf_eq_some h1
      exact hall i hmk
    | none =>
      cases h2 : jsIndexOf text marker 0 with
      | some i =>
        exfalso
        obtain ⟨-, hmk, -⟩ := jsIndexOf_eq_some h2
        exact hall i hmk
      | none => simp
  · intro a b hab
    unfold handleF2Nav at hab
    cases h1 : jsIndexOf text marker pos with
    | some i =>
      rw [h1] at hab
      simp only [Option.map_some', Option.some.injEq, Prod.mk.injEq] at hab
      obtain ⟨rfl, rfl⟩ := hab
      obtain ⟨hle, hmk, hfirst⟩ := jsIndexOf_eq_some h1
      rw [hmin] at hle hfirst
      exact ⟨rfl, hmk, Or.inl ⟨hle, hfirst⟩⟩
    | none =>
      rw [h1] at hab
      cases h2 : jsIndexOf text marker 0 with
      | none => rw [h2] at hab; simp at hab
      | some i =>
        rw [h2] at hab
        simp only [Option.map_some', Option.some.injEq, Prod.mk.injEq] at hab
        obtain ⟨rfl, rfl⟩ := hab
        obtain ⟨-, hmk, hfirst⟩ := jsIndexOf_eq_some h2
        have hafter := jsIndexOf_eq_none hm h1
        rw [hmin] at hafter
        exact ⟨rfl, hmk, Or.inr ⟨hafter, fun j hj => hfirst j (by omega) hj⟩⟩

/-- Witness for C7: the first invocation on "A *** B *** C" with the
cursor at 0 selects exactly the span [2, 5). -/
theorem handleF2Nav_spec_witness :
    handleF2Nav (String.toList "A *** B *** C") 0 = some (2, 5) :=
  (handleF2Nav_spec (String.toList "A *** B *** C") 0 (by decide)).2.2.1
